import Mathlib

/-!
Verification of the column-naming, grid-construction and error-handling logic of
`Tool.py` (QGIS raster value extractor).

The Python source is shallowly embedded: pure helpers (`unique_name`,
`sort_by_suffix`, `base_name_from_clip`, the grid arithmetic) become Lean
functions; the stateful sampling loop of `processAlgorithm` becomes explicit
state passing over a `LoopState`; the external QGIS operations (clip, grid
creation, buffer, sampling, attribute rename) are black-box collaborators and
enter the model as oracle parameters constrained only by their documented
contracts.  Python real arithmetic is modelled exactly over `ℚ`; Python `str`
is `String`; Python `set` is `Finset String`.
-/

namespace RVE

/-! ### Decimal representation: `Nat.repr` is injective

The Python code builds candidate column names with f-strings such as
`f'{base}_{k}'`; the corresponding Lean names use `Nat.repr`.  Termination of
the `while` loop in `unique_name` rests on the fact that distinct numbers have
distinct decimal representations, which we prove here from Mathlib's
`Nat.digits` API.
-/

lemma toDigitsCore_eq_digits (f : ℕ) : ∀ (n : ℕ) (acc : List Char), 0 < n → n < 10 ^ f →
    Nat.toDigitsCore 10 f n acc = ((Nat.digits 10 n).map Nat.digitChar).reverse ++ acc := by
  induction f with
  | zero =>
    intro n acc hn hf
    simp only [pow_zero] at hf
    omega
  | succ f ih =>
    intro n acc hn hf
    have hd : Nat.digits 10 n = n % 10 :: Nat.digits 10 (n / 10) :=
      Nat.digits_def' (by norm_num) hn
    by_cases h0 : n / 10 = 0
    · have hz : Nat.digits 10 (n / 10) = [] := by rw [h0]; simp
      rw [Nat.toDigitsCore]
      simp [h0, hd, hz]
    · rw [Nat.toDigitsCore]
      simp only [h0, if_neg, ite_false]
      rw [ih (n / 10) _ (Nat.pos_of_ne_zero h0)
        ((Nat.div_lt_iff_lt_mul (by norm_num)).mpr (by rw [← pow_succ]; exact hf))]
      rw [hd]
      simp

lemma repr_pos_eq (n : ℕ) (hn : 0 < n) :
    Nat.repr n = (((Nat.digits 10 n).map Nat.digitChar).reverse).asString := by
  have h1 : n < 10 ^ (n + 1) := by
    calc n < 2 ^ n := Nat.lt_two_pow n
    _ ≤ 10 ^ n := Nat.pow_le_pow_left (by norm_num) n
    _ ≤ 10 ^ (n + 1) := Nat.pow_le_pow_right (by norm_num) (Nat.le_succ n)
  show (Nat.toDigits 10 n).asString = _
  rw [Nat.toDigits, toDigitsCore_eq_digits (n + 1) n [] hn h1, List.append_nil]

lemma digitChar_inj_lt : ∀ d1 < 10, ∀ d2 < 10, Nat.digitChar d1 = Nat.digitChar d2 → d1 = d2 := by
  decide

lemma digitChar_ne_zero_char : ∀ d < 10, d ≠ 0 → Nat.digitChar d ≠ '0' := by
  decide

lemma map_digitChar_inj : ∀ (l1 l2 : List ℕ), (∀ d ∈ l1, d < 10) → (∀ d ∈ l2, d < 10) →
    l1.map Nat.digitChar = l2.map Nat.digitChar → l1 = l2 := by
  intro l1
  induction l1 with
  | nil =>
    intro l2 _ _ h
    cases l2 with
    | nil => rfl
    | cons b t => simp at h
  | cons a t ih =>
    intro l2 h1 h2 h
    cases l2 with
    | nil => simp at h
    | cons b t2 =>
      simp only [List.map_cons, List.cons.injEq] at h
      have ha : a = b := digitChar_inj_lt a (h1 a (by simp)) b (h2 b (by simp)) h.1
      have ht : t = t2 := ih t2 (fun d hd => h1 d (by simp [hd])) (fun d hd => h2 d (by simp [hd])) h.2
      rw [ha, ht]

lemma repr_injective : Function.Injective Nat.repr := by
  have key : ∀ n : ℕ, 0 < n → Nat.repr n ≠ "0" := by
    intro n hn h
    rw [repr_pos_eq n hn] at h
    have h' : ((Nat.digits 10 n).map Nat.digitChar).reverse = ['0'] := by
      have := List.asString_inj.mp (h.trans (rfl : ("0" : String) = (['0']).asString))
      exact this
    have hrev : (Nat.digits 10 n).map Nat.digitChar = ['0'] := by
      have := congrArg List.reverse h'
      simpa using this
    obtain ⟨d, hd⟩ : ∃ d, Nat.digits 10 n = [d] := by
      cases hdig : Nat.digits 10 n with
      | nil => rw [hdig] at hrev; simp at hrev
      | cons x t =>
        rw [hdig] at hrev
        cases t with
        | nil => exact ⟨x, rfl⟩
        | cons y t' => simp at hrev
    have hdc : Nat.digitChar d = '0' := by
      rw [hd] at hrev; simpa using hrev
    have hdlt : d < 10 := Nat.digits_lt_base (by norm_num) (by rw [hd]; simp)
    have hdne : d ≠ 0 := by
      have hlast := Nat.getLast_digit_ne_zero 10 (m := n) (by omega)
      rw [List.getLast_congr _ (by simp) hd] at hlast
      simpa using hlast
    exact digitChar_ne_zero_char d hdlt hdne hdc
  intro m n h
  rcases Nat.eq_zero_or_pos m with hm | hm
  · rcases Nat.eq_zero_or_pos n with hn | hn
    · omega
    · subst hm
      exact absurd h.symm (key n hn)
  · rcases Nat.eq_zero_or_pos n with hn | hn
    · subst hn
      exact absurd h (key m hm)
    · rw [repr_pos_eq m hm, repr_pos_eq n hn] at h
      have hdata := List.asString_inj.mp h
      have hmap := List.reverse_injective hdata
      have hdig := map_digitChar_inj _ _
        (fun d hd => Nat.digits_lt_base (by norm_num) hd)
        (fun d hd => Nat.digits_lt_base (by norm_num) hd) hmap
      have := congrArg (Nat.ofDigits 10) hdig
      rwa [Nat.ofDigits_digits, Nat.ofDigits_digits] at this

/-! ### `unique_name` (Tool.py lines 304-314)

Python:
```
used_names = set()

def unique_name(base: str) -> str:
    n = base
    k = 1
    while n in used_names:
        n = f'{base}_{k}'
        k += 1
    used_names.add(n)
    return n
```
The loop tests the candidates `base`, `base_1`, `base_2`, … in order and stops
at the first one not in `used_names`.  `candName base j` is the `j`-th
candidate; `unique_name` picks the least `j` whose candidate is unused (via
`Nat.find`) and returns the new name together with the updated registry.
-/

def candName (base : String) (j : ℕ) : String :=
  if j = 0 then base else base ++ "_" ++ Nat.repr j

lemma candName_inj_pos {base : String} {j k : ℕ} (hj : j ≠ 0) (hk : k ≠ 0)
    (h : candName base j = candName base k) : j = k := by
  simp only [candName, hj, hk, if_neg, ite_false] at h
  have hdata := congrArg String.data h
  simp only [String.data_append] at hdata
  have hrepr : (Nat.repr j).data = (Nat.repr k).data := List.append_cancel_left hdata
  exact repr_injective (String.ext hrepr)

lemma exists_cand_not_mem (base : String) (used : Finset String) :
    ∃ j, candName base j ∉ used := by
  by_contra hc
  push_neg at hc
  have hinj : Function.Injective (fun k : ℕ => candName base (k + 1)) := by
    intro a b hab
    have := candName_inj_pos (Nat.succ_ne_zero a) (Nat.succ_ne_zero b) hab
    omega
  have hsub : Set.range (fun k : ℕ => candName base (k + 1)) ⊆ ↑used := by
    rintro x ⟨k, rfl⟩
    exact hc (k + 1)
  exact Set.infinite_range_of_injective hinj (used.finite_toSet.subset hsub)

/-- The `while` loop of `unique_name`: return the first unused candidate and
register it.  The pair is (returned name, updated `used_names`). -/
def unique_name (base : String) (used : Finset String) : String × Finset String :=
  let n := candName base (Nat.find (exists_cand_not_mem base used))
  (n, insert n used)

lemma unique_name_fst_not_mem (base : String) (used : Finset String) :
    (unique_name base used).1 ∉ used :=
  Nat.find_spec (exists_cand_not_mem base used)

lemma unique_name_snd (base : String) (used : Finset String) :
    (unique_name base used).2 = insert (unique_name base used).1 used := rfl

lemma unique_name_of_not_mem {base : String} {used : Finset String} (h : base ∉ used) :
    (unique_name base used).1 = base := by
  have h0 : Nat.find (exists_cand_not_mem base used) = 0 :=
    Nat.find_eq_zero _ |>.mpr (by simpa [candName] using h)
  simp [unique_name, h0, candName]

lemma unique_name_of_mem {base : String} {used : Finset String} (h : base ∈ used) :
    ∃ k, 0 < k ∧ (unique_name base used).1 = base ++ "_" ++ Nat.repr k ∧
      base ++ "_" ++ Nat.repr k ∉ used ∧
      ∀ j, 0 < j → j < k → base ++ "_" ++ Nat.repr j ∈ used := by
  set K := Nat.find (exists_cand_not_mem base used) with hK
  have hspec : candName base K ∉ used := Nat.find_spec (exists_cand_not_mem base used)
  have hKpos : 0 < K := by
    rcases Nat.eq_zero_or_pos K with h0 | hp
    · rw [h0] at hspec
      simp [candName] at hspec
      exact absurd h hspec
    · exact hp
  refine ⟨K, hKpos, ?_, ?_, ?_⟩
  · simp [unique_name, ← hK, candName, Nat.pos_iff_ne_zero.mp hKpos]
  · simpa [candName, Nat.pos_iff_ne_zero.mp hKpos] using hspec
  · intro j hj hjK
    have := Nat.find_min (exists_cand_not_mem base used) (hK ▸ hjK)
    simpa [candName, Nat.pos_iff_ne_zero.mp hj] using this

/-- Folding `unique_name` over a sequence of base names, threading the
registry, and collecting the returned names in order. -/
def runUniqueNames : List String → Finset String → List String × Finset String
  | [], used => ([], used)
  | b :: bs, used =>
    let p := unique_name b used
    let q := runUniqueNames bs p.2
    (p.1 :: q.1, q.2)

lemma runUniqueNames_length (bs : List String) (used : Finset String) :
    (runUniqueNames bs used).1.length = bs.length := by
  induction bs generalizing used with
  | nil => rfl
  | cons b bs ih => simp [runUniqueNames, ih]

lemma runUniqueNames_used_mono {x : String} (bs : List String) (used : Finset String)
    (hx : x ∈ used) : x ∈ (runUniqueNames bs used).2 := by
  induction bs generalizing used with
  | nil => exact hx
  | cons b bs ih =>
    exact ih _ (by rw [unique_name_snd]; exact Finset.mem_insert_of_mem hx)

lemma runUniqueNames_nodup (bs : List String) (used : Finset String) :
    (runUniqueNames bs used).1.Nodup ∧ ∀ x ∈ (runUniqueNames bs used).1, x ∉ used := by
  induction bs generalizing used with
  | nil => exact ⟨List.nodup_nil, by simp [runUniqueNames]⟩
  | cons b bs ih =>
    obtain ⟨hnd, hfresh⟩ := ih (unique_name b used).2
    constructor
    · refine List.nodup_cons.mpr ⟨?_, hnd⟩
      intro hmem
      exact hfresh _ hmem (by rw [unique_name_snd]; exact Finset.mem_insert_self _ _)
    · intro x hx hxu
      rcases List.mem_cons.mp hx with rfl | hx'
      · exact unique_name_fst_not_mem b used hxu
      · exact hfresh _ hx' (by rw [unique_name_snd]; exact Finset.mem_insert_of_mem hxu)

lemma runUniqueNames_take_succ (bs : List String) (used : Finset String)
    (i : ℕ) (h : i < bs.length) :
    (runUniqueNames (bs.take (i + 1)) used).2 =
      insert ((unique_name (bs.get ⟨i, h⟩) ((runUniqueNames (bs.take i) used).2)).1)
        ((runUniqueNames (bs.take i) used).2) := by
  induction bs generalizing used i with
  | nil => simp at h
  | cons b bs ih =>
    cases i with
    | zero => simp [runUniqueNames, unique_name_snd]
    | succ i =>
      have h' : i < bs.length := by simpa using h
      simpa [runUniqueNames] using ih (unique_name b used).2 i h'

lemma runUniqueNames_get (bs : List String) (used : Finset String)
    (i : ℕ) (h : i < bs.length) :
    (runUniqueNames bs used).1.get ⟨i, by rw [runUniqueNames_length]; exact h⟩ =
      (unique_name (bs.get ⟨i, h⟩) ((runUniqueNames (bs.take i) used).2)).1 := by
  induction bs generalizing used i with
  | nil => simp at h
  | cons b bs ih =>
    cases i with
    | zero => simp [runUniqueNames]
    | succ i =>
      have h' : i < bs.length := by simpa using h
      simpa [runUniqueNames] using ih (unique_name b used).2 i h'

/-- C1: for every sequence of calls to `unique_name` (duplicate base names
allowed) starting from any registry, the sequence of returned names contains no
repeats; each returned name is the base string itself when the base is not yet
used, and otherwise is the base followed by `"_"` and the smallest positive
integer `k` such that `base_k` is not in the registry; and the returned name is
added to the registry before returning (the registry after the call is
`insert` of the returned name). -/
theorem RVE_C1 (bases : List String) (used0 : Finset String) :
    (runUniqueNames bases used0).1.Nodup ∧
    ∀ (i : ℕ) (h : i < bases.length),
      (bases.get ⟨i, h⟩ ∉ (runUniqueNames (bases.take i) used0).2 →
        (runUniqueNames bases used0).1.get ⟨i, by rw [runUniqueNames_length]; exact h⟩ =
          bases.get ⟨i, h⟩) ∧
      (bases.get ⟨i, h⟩ ∈ (runUniqueNames (bases.take i) used0).2 →
        ∃ k, 0 < k ∧
          (runUniqueNames bases used0).1.get ⟨i, by rw [runUniqueNames_length]; exact h⟩ =
            bases.get ⟨i, h⟩ ++ "_" ++ Nat.repr k ∧
          bases.get ⟨i, h⟩ ++ "_" ++ Nat.repr k ∉ (runUniqueNames (bases.take i) used0).2 ∧
          ∀ j, 0 < j → j < k →
            bases.get ⟨i, h⟩ ++ "_" ++ Nat.repr j ∈ (runUniqueNames (bases.take i) used0).2) ∧
      (runUniqueNames (bases.take (i + 1)) used0).2 =
        insert ((runUniqueNames bases used0).1.get ⟨i, by rw [runUniqueNames_length]; exact h⟩)
          ((runUniqueNames (bases.take i) used0).2) := by
  refine ⟨(runUniqueNames_nodup bases used0).1, ?_⟩
  intro i h
  have hg := runUniqueNames_get bases used0 i h
  refine ⟨?_, ?_, ?_⟩
  · intro hnm
    rw [hg]
    exact unique_name_of_not_mem hnm
  · intro hm
    rw [hg]
    exact unique_name_of_mem hm
  · rw [runUniqueNames_take_succ bases used0 i h, hg]

/-- Witness for C1 at the concrete run `unique_name("a"); unique_name("a")`
from the empty registry: the second call returns `a_1`. -/
theorem RVE_C1_witness :
    ∃ k, 0 < k ∧
      (runUniqueNames ["a", "a"] ∅).1.get ⟨1, by rw [runUniqueNames_length]; norm_num⟩ =
        "a" ++ "_" ++ Nat.repr k ∧
      "a" ++ "_" ++ Nat.repr k ∉ (runUniqueNames (["a", "a"].take 1) ∅).2 ∧
      ∀ j, 0 < j → j < k →
        "a" ++ "_" ++ Nat.repr j ∈ (runUniqueNames (["a", "a"].take 1) ∅).2 := by
  have h := (RVE_C1 ["a", "a"] ∅).2 1 (by norm_num)
  have h1 : (unique_name "a" (∅ : Finset String)).1 = "a" := unique_name_of_not_mem (by simp)
  exact h.2.1 (by simp [runUniqueNames, unique_name_snd, h1])

/-! ### `sort_by_suffix` (Tool.py lines 316-321)

Python:
```
def sort_by_suffix(names):
    def keyfunc(n):
        m = re.search(r'(\d+)$', n)
        return int(m.group(1)) if m else 1
    return sorted(names, key=keyfunc)
```
The regex matches the maximal trailing run of digits (modelled for ASCII
digits).  Python's `sorted` is a stable sort by the key; the stable sorted
permutation is unique, and we embed it as Mathlib's (stable) insertion sort
under the key ordering.
-/

/-- Decimal value of a digit string, as computed by Python `int`. -/
def digitsVal (cs : List Char) : ℕ :=
  cs.foldl (fun a c => a * 10 + (c.toNat - '0'.toNat)) 0

/-- The sort key: value of the maximal trailing digit run, and 1 when the
regex does not match (no trailing digit). -/
def keyfunc (n : String) : ℕ :=
  let ds := (n.toList.reverse.takeWhile Char.isDigit).reverse
  if ds = [] then 1 else digitsVal ds

instance : DecidableRel (fun a b : String => keyfunc a ≤ keyfunc b) :=
  fun a b => Nat.decLe (keyfunc a) (keyfunc b)

def sort_by_suffix (names : List String) : List String :=
  List.insertionSort (fun a b => keyfunc a ≤ keyfunc b) names

/-! ### `base_name_from_clip` (Tool.py lines 299-302) and path helpers

Python:
```
def base_name_from_clip(path: str) -> str:
    b = os.path.splitext(os.path.basename(path))[0]
    return b[:-5] if b.endswith('_clip') else b
```
`os.path.basename`/`os.path.splitext` are modelled for POSIX paths: the
basename is the part after the last `/`; the extension starts at the last dot
of the basename provided some character before it is not a dot.
-/

def pyBasename (p : String) : String :=
  ((p.toList.reverse.takeWhile (fun c => c != '/')).reverse).asString

def pySplitextStem (b : String) : String :=
  let cs := b.toList
  match cs.reverse.findIdx? (fun c => c == '.') with
  | none => b
  | some r =>
    let sep := cs.length - 1 - r
    if sep > 0 && (cs.take sep).any (fun c => c != '.') then (cs.take sep).asString else b

def base_name_from_clip (path : String) : String :=
  let b := pySplitextStem (pyBasename path)
  if ("_clip".toList).isSuffixOf b.toList then (b.toList.take (b.toList.length - 5)).asString
  else b

/-! ### Point-grid construction (Tool.py lines 197-219)

Python:
```
center_x = extent.center().x();  center_y = extent.center().y()
width  = extent.width();         height = extent.height()
n_x    = int(width / res_x) + 1
n_y    = int(height / res_y) + 1
left   = center_x - (n_x * res_x) / 2
bottom = center_y - (n_y * res_y) / 2
right  = left + n_x * res_x
top    = bottom + n_y * res_y
grid_extent = QgsRectangle(left, bottom, right, top)
```
Real arithmetic is modelled exactly over `ℚ`.  Python `int()` truncates toward
zero, which is `pyInt` below.
-/

def pyInt (x : ℚ) : ℤ :=
  if 0 ≤ x then Int.floor x else Int.ceil x

def gridNx (width res_x : ℚ) : ℤ := pyInt (width / res_x) + 1

def gridNy (height res_y : ℚ) : ℤ := pyInt (height / res_y) + 1

structure GridSpec where
  hspacing : ℚ
  vspacing : ℚ
  left : ℚ
  bottom : ℚ
  right : ℚ
  top : ℚ

/-- The grid extent and spacings passed to `qgis:creategrid`, computed from the
reference raster's extent `[xmin, xmax] × [ymin, ymax]` and pixel sizes. -/
def buildGrid (xmin xmax ymin ymax res_x res_y : ℚ) : GridSpec :=
  let center_x := (xmin + xmax) / 2
  let center_y := (ymin + ymax) / 2
  let width := xmax - xmin
  let height := ymax - ymin
  let n_x := gridNx width res_x
  let n_y := gridNy height res_y
  let left := center_x - ((n_x : ℚ) * res_x) / 2
  let bottom := center_y - ((n_y : ℚ) * res_y) / 2
  { hspacing := res_x, vspacing := res_y,
    left := left, bottom := bottom,
    right := left + (n_x : ℚ) * res_x, top := bottom + (n_y : ℚ) * res_y }

/-- C8: `sort_by_suffix` orders names by the integer value of the trailing run
of digits (it returns a permutation of its input that is pairwise ordered by
`keyfunc`, the numeric value of the trailing digit run); a name with no
trailing digit gets key 1; and in particular
`sort_by_suffix ["B2","B10","B1"] = ["B1","B2","B10"]` (numeric, not
lexicographic, ordering). -/
theorem RVE_C8 (names : List String) :
    List.Perm (sort_by_suffix names) names ∧
    List.Pairwise (fun a b => keyfunc a ≤ keyfunc b) (sort_by_suffix names) ∧
    (∀ n : String, n.toList.reverse.takeWhile Char.isDigit = [] → keyfunc n = 1) ∧
    sort_by_suffix ["B2", "B10", "B1"] = ["B1", "B2", "B10"] := by
  refine ⟨List.perm_insertionSort _ names, ?_, ?_, by decide⟩
  · haveI : IsTotal String (fun a b => keyfunc a ≤ keyfunc b) := ⟨fun a b => Nat.le_total _ _⟩
    haveI : IsTrans String (fun a b => keyfunc a ≤ keyfunc b) := ⟨fun _ _ _ => Nat.le_trans⟩
    exact List.sorted_insertionSort _ names
  · intro n h
    simp only [keyfunc, h, List.reverse_nil]
    simp

/-- Witness for C8: the concrete three-name example sorts numerically, and the
digit-free name "dem" gets key 1. -/
theorem RVE_C8_witness :
    sort_by_suffix ["B2", "B10", "B1"] = ["B1", "B2", "B10"] ∧ keyfunc "dem" = 1 :=
  ⟨(RVE_C8 []).2.2.2, (RVE_C8 []).2.2.1 "dem" (by decide)⟩

/-- Counterexample to C6 as stated: with width 2 and pixel size 1 the code
computes `n_x = int(2/1) + 1 = 3` cells, yet 2 cells already have total span
`2 * 1 ≥ 2` covering the full raster width, so `n_x` is not the smallest
integer number of cells whose total span covers the width. -/
theorem RVE_C6_counterexample :
    ¬ (∀ n : ℤ, 1 ≤ n → (2 : ℚ) ≤ (n : ℚ) * 1 → gridNx 2 1 ≤ n) := by
  intro hcl
  have h2 := hcl 2 (by norm_num) (by norm_num)
  have h3 : gridNx 2 1 = 3 := by
    simp only [gridNx, pyInt]
    norm_num
  omega

/-- C6 (amended): for a reference raster extent `[xmin,xmax] × [ymin,ymax]`
with positive pixel sizes, the grid passed to `qgis:creategrid` has spacing
`(res_x, res_y)`, cell counts `n_x = floor(width/res_x) + 1` and
`n_y = floor(height/res_y) + 1`, and is re-centered on the raster extent's
center; `n_x` (resp. `n_y`) is the smallest integer number of cells whose
total span STRICTLY exceeds the raster width (resp. height) — when the width
is an exact multiple of the resolution, one fewer cell would already span it
exactly — and consequently the grid extent contains the raster extent. -/
theorem RVE_C6 (xmin xmax ymin ymax res_x res_y : ℚ)
    (hx : 0 < res_x) (hy : 0 < res_y) (hw : xmin < xmax) (hh : ymin < ymax) :
    (buildGrid xmin xmax ymin ymax res_x res_y).hspacing = res_x ∧
    (buildGrid xmin xmax ymin ymax res_x res_y).vspacing = res_y ∧
    gridNx (xmax - xmin) res_x = ⌊(xmax - xmin) / res_x⌋ + 1 ∧
    gridNy (ymax - ymin) res_y = ⌊(ymax - ymin) / res_y⌋ + 1 ∧
    ((buildGrid xmin xmax ymin ymax res_x res_y).left +
      (buildGrid xmin xmax ymin ymax res_x res_y).right) / 2 = (xmin + xmax) / 2 ∧
    ((buildGrid xmin xmax ymin ymax res_x res_y).bottom +
      (buildGrid xmin xmax ymin ymax res_x res_y).top) / 2 = (ymin + ymax) / 2 ∧
    (xmax - xmin) < (gridNx (xmax - xmin) res_x : ℚ) * res_x ∧
    (ymax - ymin) < (gridNy (ymax - ymin) res_y : ℚ) * res_y ∧
    (∀ n : ℤ, (xmax - xmin) < (n : ℚ) * res_x → gridNx (xmax - xmin) res_x ≤ n) ∧
    (∀ n : ℤ, (ymax - ymin) < (n : ℚ) * res_y → gridNy (ymax - ymin) res_y ≤ n) ∧
    (buildGrid xmin xmax ymin ymax res_x res_y).left ≤ xmin ∧
    xmax ≤ (buildGrid xmin xmax ymin ymax res_x res_y).right ∧
    (buildGrid xmin xmax ymin ymax res_x res_y).bottom ≤ ymin ∧
    ymax ≤ (buildGrid xmin xmax ymin ymax res_x res_y).top := by
  have hwpos : 0 < xmax - xmin := by linarith
  have hhpos : 0 < ymax - ymin := by linarith
  have hnx : gridNx (xmax - xmin) res_x = ⌊(xmax - xmin) / res_x⌋ + 1 := by
    unfold gridNx pyInt
    rw [if_pos (by positivity)]
  have hny : gridNy (ymax - ymin) res_y = ⌊(ymax - ymin) / res_y⌋ + 1 := by
    unfold gridNy pyInt
    rw [if_pos (by positivity)]
  have hcovx : (xmax - xmin) < (gridNx (xmax - xmin) res_x : ℚ) * res_x := by
    rw [hnx]
    push_cast
    have h1 : (xmax - xmin) / res_x < (⌊(xmax - xmin) / res_x⌋ : ℚ) + 1 :=
      Int.lt_floor_add_one _
    calc xmax - xmin = ((xmax - xmin) / res_x) * res_x := by field_simp
    _ < ((⌊(xmax - xmin) / res_x⌋ : ℚ) + 1) * res_x := mul_lt_mul_of_pos_right h1 hx
  have hcovy : (ymax - ymin) < (gridNy (ymax - ymin) res_y : ℚ) * res_y := by
    rw [hny]
    push_cast
    have h1 : (ymax - ymin) / res_y < (⌊(ymax - ymin) / res_y⌋ : ℚ) + 1 :=
      Int.lt_floor_add_one _
    calc ymax - ymin = ((ymax - ymin) / res_y) * res_y := by field_simp
    _ < ((⌊(ymax - ymin) / res_y⌋ : ℚ) + 1) * res_y := mul_lt_mul_of_pos_right h1 hy
  have hminx : ∀ n : ℤ, (xmax - xmin) < (n : ℚ) * res_x → gridNx (xmax - xmin) res_x ≤ n := by
    intro n hn
    have h1 : (xmax - xmin) / res_x < (n : ℚ) := (div_lt_iff₀ hx).mpr hn
    have h2 : (⌊(xmax - xmin) / res_x⌋ : ℚ) ≤ (xmax - xmin) / res_x := Int.floor_le _
    have h3 : ⌊(xmax - xmin) / res_x⌋ < n := by exact_mod_cast lt_of_le_of_lt h2 h1
    rw [hnx]
    omega
  have hminy : ∀ n : ℤ, (ymax - ymin) < (n : ℚ) * res_y → gridNy (ymax - ymin) res_y ≤ n := by
    intro n hn
    have h1 : (ymax - ymin) / res_y < (n : ℚ) := (div_lt_iff₀ hy).mpr hn
    have h2 : (⌊(ymax - ymin) / res_y⌋ : ℚ) ≤ (ymax - ymin) / res_y := Int.floor_le _
    have h3 : ⌊(ymax - ymin) / res_y⌋ < n := by exact_mod_cast lt_of_le_of_lt h2 h1
    rw [hny]
    omega
  refine ⟨rfl, rfl, hnx, hny, ?_, ?_, hcovx, hcovy, hminx, hminy, ?_, ?_, ?_, ?_⟩
  · simp only [buildGrid]
    ring
  · simp only [buildGrid]
    ring
  · simp only [buildGrid]
    linarith [hcovx]
  · simp only [buildGrid]
    linarith [hcovx]
  · simp only [buildGrid]
    linarith [hcovy]
  · simp only [buildGrid]
    linarith [hcovy]

/-- Witness for C6 at the concrete extent `[0,2] × [0,3]` with pixel size 1:
the grid extent contains the raster extent. -/
theorem RVE_C6_witness :
    (buildGrid 0 2 0 3 1 1).left ≤ 0 ∧ (2 : ℚ) ≤ (buildGrid 0 2 0 3 1 1).right := by
  have h := RVE_C6 0 2 0 3 1 1 (by norm_num) (by norm_num) (by norm_num) (by norm_num)
  obtain ⟨-, -, -, -, -, -, -, -, -, -, hL, hR, -, -⟩ := h
  exact ⟨by simpa using hL, by simpa using hR⟩

/-! ### The sampling loop (Tool.py lines 330-395)

Per clipped raster `r_path` at loop index `i` the code does:
```
base = base_name_from_clip(r_path)
final_base = unique_name(base)
tmp_prefix = f'tmp{i}__'
fields_before = [f.name() for f in grid.fields()]
try:
    res = processing.run('qgis:rastersampling', {...,'COLUMN_PREFIX': tmp_prefix,...})
    grid = res['OUTPUT']
except Exception as e:
    feedback.pushWarning(f'Error sampling {final_base}: {e}'); continue
all_names = [f.name() for f in grid.fields()]
new_fields = [n for n in all_names if n.startswith(tmp_prefix)]
if not new_fields:
    new_fields = [n for n in all_names if n not in set(fields_before)]
new_fields_sorted = sort_by_suffix(new_fields)
if len(new_fields_sorted) <= 1: final_names = [final_base]
else: final_names = [unique_name(f'{final_base}_B{j+1}') for j in range(len(new_fields_sorted))]
try:
    rename_map = {}
    for old, new in zip(new_fields_sorted, final_names):
        if old == new: continue
        idx = grid.fields().indexOf(old)
        if idx != -1: rename_map[idx] = new
    if rename_map:
        grid.startEditing()
        ok = grid.dataProvider().renameAttributes(rename_map)
        grid.updateFields()
        if not ok: grid.rollBack(); feedback.pushWarning('Field renaming failed ...')
        else: grid.commitChanges()
except Exception as e:
    feedback.pushWarning(f'Error renaming fields for {final_base}: {e}')
```
The grid is modelled by its ordered list of column names.  The external
sampler is an oracle that either throws or returns the output layer's full
field list.  `renameAttributes` is an external provider call, modelled per its
contract: it is applied atomically; it can fail for a provider-side reason
(oracle `refuses` / `throws`), and it cannot succeed when an index is invalid
or the renames would produce duplicate column names; on failure the
rollback restores the pre-rename fields.  The `feedback` channel is modelled
by the accumulated warning list; cooperative cancellation is not modelled
(the cancellation flag is taken to be always false).  `allocs` is a ghost
trace of every name `unique_name` returned during the run.
-/

inductive SampleResult where
  | throws (msg : String)
  | ok (fields : List String)
deriving DecidableEq

inductive RenameOutcome where
  | fine
  | refuses
  | throws (msg : String)
deriving DecidableEq

structure LoopState where
  grid : List String
  used : Finset String
  allocs : List String
  warns : List String

/-- The column prefix `f'tmp{i}__'` for loop iteration `i`. -/
def tmpPre (i : ℕ) : String := "tmp" ++ Nat.repr i ++ "__"

/-- Python `str.startswith`, on list representations. -/
def strStarts (pre s : String) : Bool := pre.toList.isPrefixOf s.toList

/-- First index of `x` in a list (QgsFields.indexOf; `none` models -1). -/
def pyIndexOf (x : String) : List String → Option ℕ
  | [] => none
  | y :: ys => if y = x then some 0 else (pyIndexOf x ys).map (· + 1)

/-- Step 4 of the loop: the newly added columns — those carrying the temp
prefix, or (defensive fallback) the set difference with `fields_before`. -/
def newFieldsOf (i : ℕ) (fields_before all_names : List String) : List String :=
  let nf0 := all_names.filter (fun n => strStarts (tmpPre i) n)
  if nf0 = [] then all_names.filter (fun n => !(fields_before.contains n)) else nf0

/-- Step 6 of the loop: final column names.  A single (or no) new column gets
`final_base`; a multi-band result gets `unique_name(f'{final_base}_B{j+1}')`
for `j` in `range(count)`, threading the registry. -/
def resolveFinalNames (final_base : String) (count : ℕ) (used1 : Finset String) :
    List String × Finset String :=
  if count ≤ 1 then ([final_base], used1)
  else runUniqueNames ((List.range count).map (fun j => final_base ++ "_B" ++ Nat.repr (j + 1))) used1

/-- The Python `rename_map` dict: pair the sorted temp names with the final
names, skip pairs where old = new, skip names not found in the grid. -/
def renameMapOf (pairs : List (String × String)) (g : List String) : List (ℕ × String) :=
  pairs.foldl (fun acc p =>
    if p.1 = p.2 then acc
    else match pyIndexOf p.1 g with
      | some idx => acc ++ [(idx, p.2)]
      | none => acc) []

/-- Apply an index→name rename map to the field list starting at index `k`. -/
def applyRenameFrom (m : List (ℕ × String)) : ℕ → List String → List String
  | _, [] => []
  | k, x :: xs => ((m.lookup k).getD x) :: applyRenameFrom m (k + 1) xs

def applyRename (m : List (ℕ × String)) (g : List String) : List String :=
  applyRenameFrom m 0 g

/-- Provider contract: `renameAttributes` can only succeed when every index is
a valid field index and the resulting field names are pairwise distinct. -/
def renameValid (m : List (ℕ × String)) (g : List String) : Bool :=
  m.all (fun p => p.1 < g.length) && decide (applyRename m g).Nodup

/-- The rest of the loop body once sampling returned a layer with field list
`all_names` (steps 4-7: detect new columns, sort, resolve names, rename). -/
def sampleOk (st : LoopState) (i : ℕ) (final_base : String) (used1 : Finset String)
    (all_names : List String) (ror : RenameOutcome) : LoopState :=
  let new_sorted := sort_by_suffix (newFieldsOf i st.grid all_names)
  let q := resolveFinalNames final_base new_sorted.length used1
  let rename_map := renameMapOf (new_sorted.zip q.1) all_names
  let bandAllocs := if new_sorted.length ≤ 1 then [] else q.1
  let st' : LoopState := { grid := all_names, used := q.2,
                           allocs := st.allocs ++ [final_base] ++ bandAllocs,
                           warns := st.warns }
  if rename_map = [] then st'
  else match ror with
    | RenameOutcome.fine =>
        if renameValid rename_map all_names then
          { st' with grid := applyRename rename_map all_names }
        else
          { st' with warns := st.warns ++ ["Field renaming failed for one or more fields."] }
    | RenameOutcome.refuses =>
        { st' with warns := st.warns ++ ["Field renaming failed for one or more fields."] }
    | RenameOutcome.throws msg =>
        { st' with warns := st.warns ++ ["Error renaming fields for " ++ final_base ++ ": " ++ msg] }

/-- One iteration of the sampling loop. -/
def sampleStep (st : LoopState) (i : ℕ) (r_path : String) (sres : SampleResult)
    (ror : RenameOutcome) : LoopState :=
  let p := unique_name (base_name_from_clip r_path) st.used
  match sres with
  | SampleResult.throws msg =>
      { grid := st.grid, used := p.2, allocs := st.allocs ++ [p.1],
        warns := st.warns ++ ["Error sampling " ++ p.1 ++ ": " ++ msg] }
  | SampleResult.ok all_names => sampleOk st i p.1 p.2 all_names ror

/-- The loop over the clipped rasters, from loop index `i`. -/
def runSamplingAux : ℕ → List (String × SampleResult × RenameOutcome) → LoopState → LoopState
  | _, [], st => st
  | i, (r, sres, ror) :: rest, st => runSamplingAux (i + 1) rest (sampleStep st i r sres ror)

def runSampling (items : List (String × SampleResult × RenameOutcome)) (st : LoopState) :
    LoopState :=
  runSamplingAux 0 items st

/-- Every intermediate value of the grid's column list during the loop
(including before the first and after the last iteration). -/
def sampleTraceAux : ℕ → List (String × SampleResult × RenameOutcome) → LoopState →
    List (List String)
  | _, [], st => [st.grid]
  | i, (r, sres, ror) :: rest, st => st.grid :: sampleTraceAux (i + 1) rest (sampleStep st i r sres ror)

/-! ### Facts about the rename machinery -/

lemma applyRenameFrom_get? (m : List (ℕ × String)) :
    ∀ (g : List String) (k j : ℕ),
      (applyRenameFrom m k g).get? j = (g.get? j).map (fun x => (m.lookup (k + j)).getD x) := by
  intro g
  induction g with
  | nil => intro k j; simp [applyRenameFrom]
  | cons x xs ih =>
    intro k j
    cases j with
    | zero => simp [applyRenameFrom]
    | succ j =>
      simp only [applyRenameFrom, List.get?_cons_succ, ih (k + 1) j]
      have : k + 1 + j = k + (j + 1) := by omega
      rw [this]

lemma applyRename_get? (m : List (ℕ × String)) (g : List String) (j : ℕ) :
    (applyRename m g).get? j = (g.get? j).map (fun x => (m.lookup j).getD x) := by
  have := applyRenameFrom_get? m g 0 j
  simpa [applyRename] using this

lemma applyRenameFrom_length (m : List (ℕ × String)) :
    ∀ (g : List String) (k : ℕ), (applyRenameFrom m k g).length = g.length := by
  intro g
  induction g with
  | nil => intro k; rfl
  | cons x xs ih => intro k; simp [applyRenameFrom, ih]

lemma pyIndexOf_get? {x : String} : ∀ {g : List String} {i : ℕ},
    pyIndexOf x g = some i → g.get? i = some x := by
  intro g
  induction g with
  | nil => intro i h; simp [pyIndexOf] at h
  | cons y ys ih =>
    intro i h
    by_cases hyx : y = x
    · simp [pyIndexOf, hyx] at h
      subst h
      simp [hyx]
    · simp [pyIndexOf, hyx] at h
      obtain ⟨i', hi', rfl⟩ := h
      simpa using ih hi'

lemma pyIndexOf_of_mem {x : String} : ∀ {g : List String}, x ∈ g → ∃ i, pyIndexOf x g = some i := by
  intro g
  induction g with
  | nil => intro h; simp at h
  | cons y ys ih =>
    intro h
    by_cases hyx : y = x
    · exact ⟨0, by simp [pyIndexOf, hyx]⟩
    · have hx : x ∈ ys := by
        rcases List.mem_cons.mp h with h1 | h1
        · exact absurd h1.symm hyx
        · exact h1
      obtain ⟨i, hi⟩ := ih hx
      exact ⟨i + 1, by simp [pyIndexOf, hyx, hi]⟩

lemma pyIndexOf_inj {x y : String} {g : List String} {i : ℕ}
    (hx : pyIndexOf x g = some i) (hy : pyIndexOf y g = some i) : x = y := by
  have h1 := pyIndexOf_get? hx
  have h2 := pyIndexOf_get? hy
  rw [h1] at h2
  exact (Option.some.injEq _ _ ▸ h2)

/-- The per-pair contribution to the rename map. -/
def renameEntry (g : List String) (p : String × String) : Option (ℕ × String) :=
  if p.1 = p.2 then none else (pyIndexOf p.1 g).map (fun idx => (idx, p.2))

lemma renameMapOf_eq_filterMap (pairs : List (String × String)) (g : List String) :
    renameMapOf pairs g = pairs.filterMap (renameEntry g) := by
  suffices h : ∀ (ps : List (String × String)) (acc : List (ℕ × String)),
      ps.foldl (fun acc p =>
        if p.1 = p.2 then acc
        else match pyIndexOf p.1 g with
          | some idx => acc ++ [(idx, p.2)]
          | none => acc) acc = acc ++ ps.filterMap (renameEntry g) by
    simpa [renameMapOf] using h pairs []
  intro ps
  induction ps with
  | nil => intro acc; simp
  | cons p ps ih =>
    intro acc
    rw [List.foldl_cons]
    by_cases hpp : p.1 = p.2
    · simp only [hpp, if_pos, ite_true]
      rw [ih]
      simp [renameEntry, hpp, List.filterMap_cons]
    · cases hidx : pyIndexOf p.1 g with
      | none =>
        simp only [hpp, ite_false]
        rw [ih]
        simp [renameEntry, hpp, hidx, List.filterMap_cons]
      | some idx =>
        simp only [hpp, ite_false]
        rw [ih]
        simp [renameEntry, hpp, hidx, List.filterMap_cons]

lemma renameEntry_eq_some {g : List String} {p : String × String} {k : ℕ} {v : String}
    (h : renameEntry g p = some (k, v)) :
    p.1 ≠ p.2 ∧ pyIndexOf p.1 g = some k ∧ v = p.2 := by
  by_cases hpp : p.1 = p.2
  · simp [renameEntry, hpp] at h
  · simp only [renameEntry, hpp, ite_false] at h
    cases hidx : pyIndexOf p.1 g with
    | none => rw [hidx] at h; simp at h
    | some i =>
      rw [hidx] at h
      simp only [Option.map_some', Option.some.injEq, Prod.mk.injEq] at h
      exact ⟨hpp, by rw [h.1], h.2.symm⟩

lemma mem_renameMapOf {pairs : List (String × String)} {g : List String} {k : ℕ} {v : String}
    (h : (k, v) ∈ renameMapOf pairs g) :
    ∃ p ∈ pairs, p.1 ≠ p.2 ∧ pyIndexOf p.1 g = some k ∧ v = p.2 := by
  rw [renameMapOf_eq_filterMap] at h
  obtain ⟨p, hp, he⟩ := List.mem_filterMap.mp h
  exact ⟨p, hp, renameEntry_eq_some he⟩

lemma lookup_renameMapOf_none {g : List String} {a : String} {idx : ℕ}
    (hidx : pyIndexOf a g = some idx) :
    ∀ {pairs : List (String × String)}, a ∉ pairs.map Prod.fst →
      (renameMapOf pairs g).lookup idx = none := by
  intro pairs
  induction pairs with
  | nil => intro _; simp [renameMapOf]
  | cons p ps ih =>
    intro hnot
    have hp1 : p.1 ≠ a := by
      intro hcon
      exact hnot (by simp [hcon])
    have hps : a ∉ ps.map Prod.fst := fun hc => hnot (by simp [hc])
    rw [renameMapOf_eq_filterMap, List.filterMap_cons]
    cases he : renameEntry g p with
    | none =>
      rw [← renameMapOf_eq_filterMap]
      exact ih hps
    | some e =>
      obtain ⟨e1, e2⟩ := e
      obtain ⟨-, hi', -⟩ := renameEntry_eq_some he
      have hne : idx ≠ e1 := by
        intro hcon
        exact hp1 (pyIndexOf_inj hi' (hcon ▸ hidx))
      rw [List.lookup_cons, show (idx == e1) = false by simpa using hne]
      show List.lookup idx (List.filterMap (renameEntry g) ps) = none
      rw [← renameMapOf_eq_filterMap]
      exact ih hps

lemma lookup_renameMapOf_eq {g : List String} {a b : String} {idx : ℕ}
    (hidx : pyIndexOf a g = some idx) :
    ∀ {pairs : List (String × String)}, (pairs.map Prod.fst).Nodup → (a, b) ∈ pairs →
      (renameMapOf pairs g).lookup idx = if a = b then none else some b := by
  intro pairs
  induction pairs with
  | nil => intro _ hab; simp at hab
  | cons p ps ih =>
    intro hnd hab
    have hnd1 : p.1 ∉ ps.map Prod.fst := (List.nodup_cons.mp (by simpa using hnd)).1
    have hnd2 : (ps.map Prod.fst).Nodup := (List.nodup_cons.mp (by simpa using hnd)).2
    rcases List.mem_cons.mp hab with rfl | htail
    · by_cases hpp : a = b
      · rw [if_pos hpp]
        have he : renameEntry g (a, b) = none := by simp [renameEntry, hpp]
        rw [renameMapOf_eq_filterMap, List.filterMap_cons, he, ← renameMapOf_eq_filterMap]
        exact lookup_renameMapOf_none hidx (by simpa using hnd1)
      · rw [if_neg hpp]
        have he : renameEntry g (a, b) = some (idx, b) := by
          simp [renameEntry, hpp, hidx]
        rw [renameMapOf_eq_filterMap, List.filterMap_cons, he, List.lookup_cons]
        simp
    · have hp1 : p.1 ≠ a := by
        intro hcon
        exact hnd1 (hcon ▸ (List.mem_map.mpr ⟨(a, b), htail, rfl⟩))
      rw [renameMapOf_eq_filterMap, List.filterMap_cons]
      cases he : renameEntry g p with
      | none =>
        rw [← renameMapOf_eq_filterMap]
        exact ih hnd2 htail
      | some e =>
        obtain ⟨e1, e2⟩ := e
        obtain ⟨-, hi', -⟩ := renameEntry_eq_some he
        have hne : idx ≠ e1 := by
          intro hcon
          exact hp1 (pyIndexOf_inj hi' (hcon ▸ hidx))
        rw [List.lookup_cons, show (idx == e1) = false by simpa using hne]
        show List.lookup idx (List.filterMap (renameEntry g) ps) = if a = b then none else some b
        rw [← renameMapOf_eq_filterMap]
        exact ih hnd2 htail

/-! ### Invariants of the sampling loop -/

lemma runUniqueNames_output_mem :
    ∀ (bs : List String) (u : Finset String), ∀ x ∈ (runUniqueNames bs u).1,
      x ∈ (runUniqueNames bs u).2 := by
  intro bs
  induction bs with
  | nil => intro u x hx; simp [runUniqueNames] at hx
  | cons b bs ih =>
    intro u x hx
    rcases List.mem_cons.mp hx with rfl | hx'
    · exact runUniqueNames_used_mono bs _
        (by rw [unique_name_snd]; exact Finset.mem_insert_self _ _)
    · exact ih _ x hx'

lemma resolveFinalNames_used_mono {x : String} (fb : String) (c : ℕ) (u1 : Finset String)
    (hx : x ∈ u1) : x ∈ (resolveFinalNames fb c u1).2 := by
  unfold resolveFinalNames
  split
  · exact hx
  · exact runUniqueNames_used_mono _ _ hx

lemma sampleOk_used (st : LoopState) (i : ℕ) (fb : String) (u1 : Finset String)
    (an : List String) (ror : RenameOutcome) :
    (sampleOk st i fb u1 an ror).used =
      (resolveFinalNames fb (sort_by_suffix (newFieldsOf i st.grid an)).length u1).2 := by
  unfold sampleOk
  dsimp only
  split
  · rfl
  · split
    · split <;> rfl
    · rfl
    · rfl

lemma sampleOk_allocs (st : LoopState) (i : ℕ) (fb : String) (u1 : Finset String)
    (an : List String) (ror : RenameOutcome) :
    (sampleOk st i fb u1 an ror).allocs =
      st.allocs ++ [fb] ++
        (if (sort_by_suffix (newFieldsOf i st.grid an)).length ≤ 1 then []
         else (resolveFinalNames fb (sort_by_suffix (newFieldsOf i st.grid an)).length u1).1) := by
  unfold sampleOk
  dsimp only
  split
  · rfl
  · split
    · split <;> rfl
    · rfl
    · rfl

lemma sampleOk_grid_cases (st : LoopState) (i : ℕ) (fb : String) (u1 : Finset String)
    (an : List String) (ror : RenameOutcome) :
    (sampleOk st i fb u1 an ror).grid = an ∨
    ((sampleOk st i fb u1 an ror).grid =
        applyRename (renameMapOf ((sort_by_suffix (newFieldsOf i st.grid an)).zip
          (resolveFinalNames fb (sort_by_suffix (newFieldsOf i st.grid an)).length u1).1) an) an ∧
      renameValid (renameMapOf ((sort_by_suffix (newFieldsOf i st.grid an)).zip
          (resolveFinalNames fb (sort_by_suffix (newFieldsOf i st.grid an)).length u1).1) an)
        an = true) := by
  unfold sampleOk
  dsimp only
  split
  · left; rfl
  · split
    · split
      · next hv => right; exact ⟨rfl, hv⟩
      · left; rfl
    · left; rfl
    · left; rfl

lemma renameValid_nodup {m : List (ℕ × String)} {g : List String}
    (h : renameValid m g = true) : (applyRename m g).Nodup := by
  unfold renameValid at h
  rw [Bool.and_eq_true] at h
  exact of_decide_eq_true h.2

lemma sampleOk_grid_nodup (st : LoopState) (i : ℕ) (fb : String) (u1 : Finset String)
    (an : List String) (ror : RenameOutcome) (h : an.Nodup) :
    (sampleOk st i fb u1 an ror).grid.Nodup := by
  rcases sampleOk_grid_cases st i fb u1 an ror with hg | ⟨hg, hv⟩
  · rw [hg]; exact h
  · rw [hg]; exact renameValid_nodup hv

/-- The run-long invariant: the grid's column names are pairwise distinct, the
trace of `unique_name` allocations has no repeats, and every allocated name is
registered in `used_names`. -/
def StateInv (st : LoopState) : Prop :=
  st.grid.Nodup ∧ st.allocs.Nodup ∧ ∀ a ∈ st.allocs, a ∈ st.used

lemma sampleStep_inv (st : LoopState) (i : ℕ) (r : String) (sres : SampleResult)
    (ror : RenameOutcome) (hst : StateInv st)
    (hok : ∀ fields, sres = SampleResult.ok fields → fields.Nodup) :
    StateInv (sampleStep st i r sres ror) := by
  obtain ⟨h1, h2, h3⟩ := hst
  have hfst := unique_name_fst_not_mem (base_name_from_clip r) st.used
  have hfa : (unique_name (base_name_from_clip r) st.used).1 ∉ st.allocs :=
    fun hc => hfst (h3 _ hc)
  cases sres with
  | throws msg =>
    refine ⟨h1, ?_, ?_⟩
    · simp only [sampleStep]
      rw [List.nodup_append]
      exact ⟨h2, List.nodup_singleton _, by
        intro a ha hb
        simp at hb
        exact hfa (hb ▸ ha)⟩
    · intro a ha
      simp only [sampleStep] at ha ⊢
      rw [unique_name_snd]
      rcases List.mem_append.mp ha with ha' | ha'
      · exact Finset.mem_insert_of_mem (h3 a ha')
      · simp at ha'
        rw [ha']
        exact Finset.mem_insert_self _ _
  | ok fields =>
    have hfs := hok fields rfl
    simp only [sampleStep]
    set p := unique_name (base_name_from_clip r) st.used with hp
    set c := (sort_by_suffix (newFieldsOf i st.grid fields)).length with hc
    have hBandNodup : (if c ≤ 1 then ([] : List String)
        else (resolveFinalNames p.1 c p.2).1).Nodup := by
      by_cases hcle : c ≤ 1
      · simp [hcle]
      · simp only [hcle, ite_false]
        unfold resolveFinalNames
        rw [if_neg hcle]
        exact (runUniqueNames_nodup _ _).1
    have hBandFresh : ∀ x ∈ (if c ≤ 1 then ([] : List String)
        else (resolveFinalNames p.1 c p.2).1), x ∉ p.2 := by
      intro x hx
      by_cases hcle : c ≤ 1
      · simp [hcle] at hx
      · simp only [hcle, ite_false] at hx
        unfold resolveFinalNames at hx
        rw [if_neg hcle] at hx
        exact (runUniqueNames_nodup _ _).2 x hx
    have hBandMem : ∀ x ∈ (if c ≤ 1 then ([] : List String)
        else (resolveFinalNames p.1 c p.2).1), x ∈ (resolveFinalNames p.1 c p.2).2 := by
      intro x hx
      by_cases hcle : c ≤ 1
      · simp [hcle] at hx
      · simp only [hcle, ite_false] at hx
        unfold resolveFinalNames at hx ⊢
        rw [if_neg hcle] at hx ⊢
        exact runUniqueNames_output_mem _ _ x hx
    have hUsedMono : ∀ x ∈ p.2, x ∈ (resolveFinalNames p.1 c p.2).2 :=
      fun x hx => resolveFinalNames_used_mono p.1 c p.2 hx
    have hStUsed : ∀ x ∈ st.used, x ∈ p.2 := by
      intro x hx
      rw [unique_name_snd]
      exact Finset.mem_insert_of_mem hx
    have hp1mem : p.1 ∈ p.2 := by
      rw [unique_name_snd]
      exact Finset.mem_insert_self _ _
    refine ⟨sampleOk_grid_nodup st i p.1 p.2 fields ror hfs, ?_, ?_⟩
    · rw [sampleOk_allocs, ← hc]
      rw [List.nodup_append, List.nodup_append]
      refine ⟨⟨h2, List.nodup_singleton _, ?_⟩, hBandNodup, ?_⟩
      · intro a ha hb
        simp only [List.mem_singleton] at hb
        exact hfa (hb ▸ ha)
      · intro a ha hb
        have hnotin : a ∉ p.2 := hBandFresh a hb
        rcases List.mem_append.mp ha with ha' | ha'
        · exact hnotin (hStUsed a (h3 a ha'))
        · simp only [List.mem_singleton] at ha'
          exact hnotin (ha' ▸ hp1mem)
    · intro a ha
      rw [sampleOk_allocs, ← hc] at ha
      rw [sampleOk_used, ← hc]
      rcases List.mem_append.mp ha with ha' | hband
      · rcases List.mem_append.mp ha' with h' | h'
        · exact hUsedMono a (hStUsed a (h3 a h'))
        · simp only [List.mem_singleton] at h'
          exact hUsedMono a (h' ▸ hp1mem)
      · exact hBandMem a hband

lemma runSamplingAux_cons (i : ℕ) (r : String) (sres : SampleResult) (ror : RenameOutcome)
    (rest : List (String × SampleResult × RenameOutcome)) (st : LoopState) :
    runSamplingAux i ((r, sres, ror) :: rest) st =
      runSamplingAux (i + 1) rest (sampleStep st i r sres ror) := rfl

lemma runSampling_trace_inv :
    ∀ (items : List (String × SampleResult × RenameOutcome)) (i : ℕ) (st : LoopState),
      StateInv st →
      (∀ it ∈ items, ∀ fields, it.2.1 = SampleResult.ok fields → fields.Nodup) →
      (∀ g ∈ sampleTraceAux i items st, g.Nodup) ∧ StateInv (runSamplingAux i items st) := by
  intro items
  induction items with
  | nil =>
    intro i st hst _
    refine ⟨?_, hst⟩
    intro g hg
    simp only [sampleTraceAux, List.mem_singleton] at hg
    rw [hg]
    exact hst.1
  | cons it rest ih =>
    intro i st hst hok
    obtain ⟨r, sres, ror⟩ := it
    have hstep : StateInv (sampleStep st i r sres ror) :=
      sampleStep_inv st i r sres ror hst
        (fun fields hf => hok (r, sres, ror) (List.mem_cons_self _ _) fields hf)
    have hrest := ih (i + 1) (sampleStep st i r sres ror) hstep
      (fun it2 hit2 => hok it2 (List.mem_cons_of_mem _ hit2))
    refine ⟨?_, hrest.2⟩
    intro g hg
    simp only [sampleTraceAux] at hg
    rcases List.mem_cons.mp hg with rfl | h2
    · exact hst.1
    · exact hrest.1 g h2

/-- C2: invariant over the whole sampling loop.  Starting from the freshly
clipped grid (distinct column names, empty `used_names` registry) and given
the sampler's contract that any layer it returns has pairwise-distinct field
names, (1) at every point of the run the grid's column names are pairwise
distinct, and (2) the names allocated by `unique_name` over the whole run
(the final base names and the multi-band names, drawn against the append-only
used-name registry) are pairwise distinct — a name once allocated never
collides with one allocated earlier or later in the run. -/
theorem RVE_C2 (g0 : List String) (items : List (String × SampleResult × RenameOutcome))
    (hg0 : g0.Nodup)
    (hsampler : ∀ it ∈ items, ∀ fields, it.2.1 = SampleResult.ok fields → fields.Nodup) :
    (∀ g ∈ sampleTraceAux 0 items ⟨g0, ∅, [], []⟩, g.Nodup) ∧
    (runSampling items ⟨g0, ∅, [], []⟩).allocs.Nodup := by
  have h := runSampling_trace_inv items 0 ⟨g0, ∅, [], []⟩
    ⟨hg0, List.nodup_nil, by simp⟩ hsampler
  exact ⟨h.1, h.2.2.1⟩

/-- Witness for C2: a concrete two-raster run (single-band success, then a
raster whose sampling throws) keeps all grids duplicate-free and allocates
pairwise-distinct names. -/
theorem RVE_C2_witness :
    (∀ g ∈ sampleTraceAux 0
        [("a_clip.tif", SampleResult.ok ["id", "tmp0__1"], RenameOutcome.fine),
         ("a_clip.tif", SampleResult.throws "boom", RenameOutcome.fine)]
        ⟨["id"], ∅, [], []⟩, g.Nodup) ∧
    (runSampling
        [("a_clip.tif", SampleResult.ok ["id", "tmp0__1"], RenameOutcome.fine),
         ("a_clip.tif", SampleResult.throws "boom", RenameOutcome.fine)]
        ⟨["id"], ∅, [], []⟩).allocs.Nodup := by
  refine RVE_C2 ["id"] _ (by decide) ?_
  intro it hit fields hf
  simp only [List.mem_cons, List.mem_singleton] at hit
  rcases hit with rfl | rfl | h
  · cases hf
    decide
  · cases hf
  · simp at h

/-- C4: when the sampling call for a raster throws, the pipeline logs a
warning ("Error sampling …") and continues to the next raster with the grid
exactly as it was before that iteration's sampling call: the grid value is
unchanged, the registry has only consumed the raster's base name, and the loop
proceeds with the remaining rasters — a sampling failure never aborts the
batch. -/
theorem RVE_C4 (st : LoopState) (i : ℕ) (r msg : String) (ror : RenameOutcome)
    (rest : List (String × SampleResult × RenameOutcome)) :
    (sampleStep st i r (SampleResult.throws msg) ror).grid = st.grid ∧
    (sampleStep st i r (SampleResult.throws msg) ror).warns =
      st.warns ++
        ["Error sampling " ++ (unique_name (base_name_from_clip r) st.used).1 ++ ": " ++ msg] ∧
    (sampleStep st i r (SampleResult.throws msg) ror).used =
      (unique_name (base_name_from_clip r) st.used).2 ∧
    runSamplingAux i ((r, SampleResult.throws msg, ror) :: rest) st =
      runSamplingAux (i + 1) rest (sampleStep st i r (SampleResult.throws msg) ror) :=
  ⟨rfl, rfl, rfl, rfl⟩

lemma sampleOk_grid_of_fail (st : LoopState) (i : ℕ) (fb : String) (u1 : Finset String)
    (an : List String) (ror : RenameOutcome)
    (hfail : ror ≠ RenameOutcome.fine ∨
      renameValid (renameMapOf ((sort_by_suffix (newFieldsOf i st.grid an)).zip
        (resolveFinalNames fb (sort_by_suffix (newFieldsOf i st.grid an)).length u1).1) an)
        an = false) :
    (sampleOk st i fb u1 an ror).grid = an := by
  unfold sampleOk
  dsimp only
  split
  · rfl
  · split
    · split
      · next hvt =>
        rcases hfail with hc | hv
        · exact absurd rfl hc
        · rw [hvt] at hv
          simp at hv
      · rfl
    · rfl
    · rfl

lemma sampleOk_warns_of_fail (st : LoopState) (i : ℕ) (fb : String) (u1 : Finset String)
    (an : List String) (ror : RenameOutcome)
    (hrmne : renameMapOf ((sort_by_suffix (newFieldsOf i st.grid an)).zip
        (resolveFinalNames fb (sort_by_suffix (newFieldsOf i st.grid an)).length u1).1) an ≠ [])
    (hfail : ror ≠ RenameOutcome.fine ∨
      renameValid (renameMapOf ((sort_by_suffix (newFieldsOf i st.grid an)).zip
        (resolveFinalNames fb (sort_by_suffix (newFieldsOf i st.grid an)).length u1).1) an)
        an = false) :
    ∃ w, (sampleOk st i fb u1 an ror).warns = st.warns ++ [w] := by
  unfold sampleOk
  dsimp only
  split
  · next h0 => exact absurd h0 hrmne
  · split
    · split
      · next hvt =>
        rcases hfail with hc | hv
        · exact absurd rfl hc
        · rw [hvt] at hv
          simp at hv
      · exact ⟨_, rfl⟩
    · exact ⟨_, rfl⟩
    · exact ⟨_, rfl⟩

/-- C7: the rename of an iteration's temporary columns is applied atomically
through the edit session: the iteration's resulting grid either carries all
the final names (the rename map applied) or still carries all the temporary
names — never a half-renamed state.  When the provider reports failure or
throws, the grid keeps the temporary names, a warning is pushed, and the loop
continues with the next raster. -/
theorem RVE_C7 (st : LoopState) (i : ℕ) (r_path : String) (fields : List String)
    (ror : RenameOutcome) (rest : List (String × SampleResult × RenameOutcome))
    (p : String × Finset String) (NS fns : List String) (rm : List (ℕ × String))
    (hp : p = unique_name (base_name_from_clip r_path) st.used)
    (hNS : NS = sort_by_suffix (newFieldsOf i st.grid fields))
    (hfns : fns = (resolveFinalNames p.1 NS.length p.2).1)
    (hrm : rm = renameMapOf (NS.zip fns) fields) :
    ((sampleStep st i r_path (SampleResult.ok fields) ror).grid = applyRename rm fields ∨
     (sampleStep st i r_path (SampleResult.ok fields) ror).grid = fields) ∧
    (rm ≠ [] → (ror ≠ RenameOutcome.fine ∨ renameValid rm fields = false) →
      (sampleStep st i r_path (SampleResult.ok fields) ror).grid = fields ∧
      ∃ w, (sampleStep st i r_path (SampleResult.ok fields) ror).warns = st.warns ++ [w]) ∧
    runSamplingAux i ((r_path, SampleResult.ok fields, ror) :: rest) st =
      runSamplingAux (i + 1) rest (sampleStep st i r_path (SampleResult.ok fields) ror) := by
  subst hp hNS hfns hrm
  refine ⟨?_, ?_, rfl⟩
  · rcases sampleOk_grid_cases st i (unique_name (base_name_from_clip r_path) st.used).1
      (unique_name (base_name_from_clip r_path) st.used).2 fields ror with h | ⟨h, -⟩
    · right; exact h
    · left; exact h
  · intro hrmne hfail
    exact ⟨sampleOk_grid_of_fail _ _ _ _ _ _ hfail,
           sampleOk_warns_of_fail _ _ _ _ _ _ hrmne hfail⟩

/-- Witness for C7 at a concrete failing rename: one temp column, provider
refuses, so the grid keeps the temporary name and one warning is pushed. -/
theorem RVE_C7_witness :
    (sampleStep ⟨["id"], ∅, [], []⟩ 0 "a_clip.tif" (SampleResult.ok ["id", "tmp0__1"])
        RenameOutcome.refuses).grid = ["id", "tmp0__1"] ∧
    ∃ w, (sampleStep ⟨["id"], ∅, [], []⟩ 0 "a_clip.tif" (SampleResult.ok ["id", "tmp0__1"])
        RenameOutcome.refuses).warns = [] ++ [w] := by
  have hbase : base_name_from_clip "a_clip.tif" = "a" := by decide
  have hfb : (unique_name (base_name_from_clip "a_clip.tif") (∅ : Finset String)).1 = "a" := by
    rw [hbase]
    exact unique_name_of_not_mem (by simp)
  have hNS : sort_by_suffix (newFieldsOf 0 ["id"] ["id", "tmp0__1"]) = ["tmp0__1"] := by decide
  have hfns : (resolveFinalNames (unique_name (base_name_from_clip "a_clip.tif")
      (∅ : Finset String)).1 1 (unique_name (base_name_from_clip "a_clip.tif")
      (∅ : Finset String)).2).1 = ["a"] := by
    unfold resolveFinalNames
    rw [if_pos (by norm_num)]
    rw [hfb]
  have h := RVE_C7 ⟨["id"], ∅, [], []⟩ 0 "a_clip.tif" ["id", "tmp0__1"]
    RenameOutcome.refuses [] _ _ _ _ rfl rfl rfl rfl
  have hrmne : renameMapOf
      ((sort_by_suffix (newFieldsOf 0 (LoopState.grid ⟨["id"], ∅, [], []⟩) ["id", "tmp0__1"])).zip
        (resolveFinalNames (unique_name (base_name_from_clip "a_clip.tif")
          (LoopState.used ⟨["id"], ∅, [], []⟩)).1
          (sort_by_suffix (newFieldsOf 0 (LoopState.grid ⟨["id"], ∅, [], []⟩)
            ["id", "tmp0__1"])).length
          (unique_name (base_name_from_clip "a_clip.tif")
            (LoopState.used ⟨["id"], ∅, [], []⟩)).2).1)
      ["id", "tmp0__1"] ≠ [] := by
    show renameMapOf _ _ ≠ []
    rw [show (LoopState.used ⟨["id"], ∅, [], []⟩) = (∅ : Finset String) from rfl,
      show (LoopState.grid ⟨["id"], ∅, [], []⟩) = ["id"] from rfl, hNS]
    simp only [List.length_singleton]
    rw [hfns]
    decide
  have h2 := h.2.1 hrmne (Or.inl (by simp))
  exact h2

lemma newFieldsOf_self (i : ℕ) (g : List String)
    (htmp : ∀ n ∈ g, strStarts (tmpPre i) n = false) :
    newFieldsOf i g g = [] := by
  unfold newFieldsOf
  have h1 : g.filter (fun n => strStarts (tmpPre i) n) = [] := by
    rw [List.filter_eq_nil_iff]
    intro a ha
    simp [htmp a ha]
  rw [h1]
  simp only [ite_true]
  rw [List.filter_eq_nil_iff]
  intro a ha
  simpa using ha

lemma unique_name_of_mem_one {base : String} {u : Finset String} (h : base ∈ u)
    (h1 : candName base 1 ∉ u) :
    (unique_name base u).1 = base ++ "_" ++ Nat.repr 1 := by
  have hK1 : Nat.find (exists_cand_not_mem base u) ≤ 1 :=
    Nat.find_min' (exists_cand_not_mem base u) h1
  have hK0 : Nat.find (exists_cand_not_mem base u) ≠ 0 := by
    intro h0
    have := Nat.find_spec (exists_cand_not_mem base u)
    rw [h0] at this
    simp [candName] at this
    exact this h
  have hK : Nat.find (exists_cand_not_mem base u) = 1 := by omega
  show candName base (Nat.find (exists_cand_not_mem base u)) = _
  rw [hK]
  simp [candName]

lemma sampleOk_of_no_new (st : LoopState) (i : ℕ) (fb : String) (u1 : Finset String)
    (an : List String) (ror : RenameOutcome) (h : newFieldsOf i st.grid an = []) :
    sampleOk st i fb u1 an ror =
      { grid := an, used := u1, allocs := st.allocs ++ [fb], warns := st.warns } := by
  unfold sampleOk
  dsimp only
  rw [h]
  have hsort : sort_by_suffix ([] : List String) = [] := rfl
  rw [hsort]
  simp [resolveFinalNames, renameMapOf]

/-- C10 (implicit frame effect): when sampling succeeds but adds zero new
columns (no field carries the iteration's temp prefix and the set difference
with the pre-sampling fields is empty), no rename is attempted, no warning is
pushed, and the grid's field list is unchanged — yet the raster's base name
has been consumed from the used-name registry by `unique_name` before
sampling, so a later raster with the same base name receives a `_1`-style
suffix. -/
theorem RVE_C10 (st : LoopState) (i : ℕ) (r_path : String) (ror : RenameOutcome)
    (htmp : ∀ n ∈ st.grid, strStarts (tmpPre i) n = false) :
    (sampleStep st i r_path (SampleResult.ok st.grid) ror).grid = st.grid ∧
    (sampleStep st i r_path (SampleResult.ok st.grid) ror).warns = st.warns ∧
    (sampleStep st i r_path (SampleResult.ok st.grid) ror).used =
      insert ((unique_name (base_name_from_clip r_path) st.used).1) st.used ∧
    (base_name_from_clip r_path ∉ st.used →
      (sampleStep st i r_path (SampleResult.ok st.grid) ror).used =
        insert (base_name_from_clip r_path) st.used ∧
      (base_name_from_clip r_path ++ "_" ++ Nat.repr 1 ∉
          insert (base_name_from_clip r_path) st.used →
        (unique_name (base_name_from_clip r_path)
            (sampleStep st i r_path (SampleResult.ok st.grid) ror).used).1 =
          base_name_from_clip r_path ++ "_" ++ Nat.repr 1)) := by
  have hno := newFieldsOf_self i st.grid htmp
  have hred : sampleStep st i r_path (SampleResult.ok st.grid) ror =
      { grid := st.grid,
        used := (unique_name (base_name_from_clip r_path) st.used).2,
        allocs := st.allocs ++ [(unique_name (base_name_from_clip r_path) st.used).1],
        warns := st.warns } := by
    show sampleOk st i _ _ st.grid ror = _
    exact sampleOk_of_no_new st i _ _ st.grid ror hno
  rw [hred]
  refine ⟨rfl, rfl, unique_name_snd _ _, ?_⟩
  intro hbase
  have hfb : (unique_name (base_name_from_clip r_path) st.used).1 = base_name_from_clip r_path :=
    unique_name_of_not_mem hbase
  constructor
  · rw [unique_name_snd, hfb]
  · intro h1
    rw [unique_name_snd, hfb]
    exact unique_name_of_mem_one (Finset.mem_insert_self _ _) (by
      simpa [candName] using h1)

/-- Witness for C10: sampling "a_clip.tif" against a grid with the single
column "id" adds nothing; the registry still consumes "a", and a second raster
named "a" would get "a_1". -/
theorem RVE_C10_witness :
    (sampleStep ⟨["id"], ∅, [], []⟩ 0 "a_clip.tif" (SampleResult.ok ["id"])
        RenameOutcome.fine).grid = ["id"] ∧
    (sampleStep ⟨["id"], ∅, [], []⟩ 0 "a_clip.tif" (SampleResult.ok ["id"])
        RenameOutcome.fine).used = insert (base_name_from_clip "a_clip.tif") ∅ ∧
    (unique_name (base_name_from_clip "a_clip.tif")
        (sampleStep ⟨["id"], ∅, [], []⟩ 0 "a_clip.tif" (SampleResult.ok ["id"])
          RenameOutcome.fine).used).1 =
      base_name_from_clip "a_clip.tif" ++ "_" ++ Nat.repr 1 := by
  have h := RVE_C10 ⟨["id"], ∅, [], []⟩ 0 "a_clip.tif" RenameOutcome.fine (by decide)
  have hbase : base_name_from_clip "a_clip.tif" = "a" := by decide
  have hnm : base_name_from_clip "a_clip.tif" ∉ (∅ : Finset String) := by simp
  have h4 := h.2.2.2 hnm
  refine ⟨h.1, h4.1, h4.2 ?_⟩
  rw [hbase]
  simp
  decide

/-! ### The whole pipeline (Tool.py lines 122-465)

`processAlgorithm` is modelled phase by phase.  External QGIS operations are
oracles recorded in `PipeInput`: per-raster clip outcomes, the reference-layer
load, grid creation, the optional inner buffer, the grid-to-mask clip, the
per-raster sampling/rename outcomes and the two output writes.  Raised
`QgsProcessingException`s become `Except.error` with the code's message; the
`feedback` warnings are accumulated.  Cooperative cancellation is not modelled
(`isCanceled` is taken as always false); output-path resolution and the
layer-registry side effects carry no logic relevant to the claims and are not
modelled. -/

inductive ClipResult where
  | throws (msg : String)
  | noOutput
  | ok (path : String)
deriving DecidableEq

inductive RunOutcome where
  | succeeds
  | throws (msg : String)
deriving DecidableEq

inductive MaskLayer where
  | original
  | buffered
deriving DecidableEq

/-- Clipping loop (lines 151-187): each raster is clipped independently; a
clip that throws or returns no usable output is warned about and skipped. -/
def clipPhase : List (String × ClipResult) → List String × List String
  | [] => ([], [])
  | (raster_path, c) :: rest =>
    let base_name := pySplitextStem (pyBasename raster_path)
    let t := clipPhase rest
    match c with
    | ClipResult.ok out => (out :: t.1, t.2)
    | ClipResult.noOutput => (t.1, ("Could not save clipped raster: " ++ base_name) :: t.2)
    | ClipResult.throws e => (t.1, ("Error clipping " ++ base_name ++ ": " ++ e) :: t.2)

/-- Buffer step (lines 249-271): invoked only for a positive buffer size;
on failure fall back to the unbuffered polygon with a warning.  The second
component records whether `native:buffer` was invoked at all. -/
def computeMask (buffer_size : ℚ) (buf : RunOutcome) : MaskLayer × Bool × List String :=
  if buffer_size > 0 then
    match buf with
    | RunOutcome.succeeds => (MaskLayer.buffered, true, [])
    | RunOutcome.throws e => (MaskLayer.original, true, ["Buffer failed: " ++ e])
  else (MaskLayer.original, false, [])

/-- Output writes (lines 418-452): both writes are attempted independently and
are non-fatal; a failure only pushes a warning. -/
def writeWarns (g c : RunOutcome) : List String :=
  (match g with
   | RunOutcome.succeeds => []
   | RunOutcome.throws e => ["Failed to write GeoPackage: " ++ e]) ++
  (match c with
   | RunOutcome.succeeds => []
   | RunOutcome.throws e => ["Failed to write CSV: " ++ e])

structure PipeInput where
  polygonValid : Bool
  rasters : List (String × ClipResult)
  refLoadOk : Bool
  gridCreate : RunOutcome
  buffer_size : ℚ
  bufferRun : RunOutcome
  gridClip : RunOutcome
  gridFields : List String
  samples : List (SampleResult × RenameOutcome)
  gpkgWrite : RunOutcome
  csvWrite : RunOutcome

def processAlgorithm (inp : PipeInput) : Except String LoopState :=
  if inp.polygonValid = false then Except.error "Error: invalid field polygon."
  else if inp.rasters = [] then Except.error "Error: no rasters selected."
  else
    let cp := clipPhase inp.rasters
    if cp.1 = [] then Except.error "No valid rasters after clipping."
    else if inp.refLoadOk = false then Except.error "Error loading first clipped raster."
    else
      match inp.gridCreate with
      | RunOutcome.throws e => Except.error ("Grid creation failed: " ++ e)
      | RunOutcome.succeeds =>
        let mk := computeMask inp.buffer_size inp.bufferRun
        match inp.gridClip with
        | RunOutcome.throws e => Except.error ("Grid clipping failed: " ++ e)
        | RunOutcome.succeeds =>
          let st0 : LoopState := { grid := inp.gridFields, used := ∅, allocs := [],
                                   warns := cp.2 ++ mk.2.2 }
          let stF := runSampling (cp.1.zip inp.samples) st0
          Except.ok { stF with warns := stF.warns ++ writeWarns inp.gpkgWrite inp.csvWrite }

lemma processAlgorithm_error_iff (inp : PipeInput) :
    (∃ m, processAlgorithm inp = Except.error m) ↔
      (inp.polygonValid = false ∨ inp.rasters = [] ∨ (clipPhase inp.rasters).1 = [] ∨
       inp.refLoadOk = false ∨ (∃ e, inp.gridCreate = RunOutcome.throws e) ∨
       (∃ e, inp.gridClip = RunOutcome.throws e)) := by
  cases hgc : inp.gridCreate <;> cases hcl : inp.gridClip <;>
    by_cases h1 : inp.polygonValid = false <;>
    by_cases h2 : inp.rasters = [] <;>
    by_cases h3 : (clipPhase inp.rasters).1 = [] <;>
    by_cases h4 : inp.refLoadOk = false <;>
    simp [processAlgorithm, h1, h2, h3, h4, hgc, hcl]

/-- C5: the pipeline raises a structured exception iff one of the fatal
conditions holds — invalid polygon, empty raster list, zero rasters surviving
clipping, reference-raster load failure, grid-creation failure, or
grid-to-mask clip failure.  A single raster's clip failure (throw or missing
output) only pushes a warning and skips that raster, leaving the others. -/
theorem RVE_C5 (inp : PipeInput) :
    ((∃ m, processAlgorithm inp = Except.error m) ↔
      (inp.polygonValid = false ∨ inp.rasters = [] ∨ (clipPhase inp.rasters).1 = [] ∨
       inp.refLoadOk = false ∨ (∃ e, inp.gridCreate = RunOutcome.throws e) ∨
       (∃ e, inp.gridClip = RunOutcome.throws e))) ∧
    (∀ (r e : String) (rest : List (String × ClipResult)),
      clipPhase ((r, ClipResult.throws e) :: rest) =
        ((clipPhase rest).1,
          ("Error clipping " ++ pySplitextStem (pyBasename r) ++ ": " ++ e) ::
            (clipPhase rest).2)) ∧
    (∀ (r : String) (rest : List (String × ClipResult)),
      clipPhase ((r, ClipResult.noOutput) :: rest) =
        ((clipPhase rest).1,
          ("Could not save clipped raster: " ++ pySplitextStem (pyBasename r)) ::
            (clipPhase rest).2)) ∧
    (∀ (r out : String) (rest : List (String × ClipResult)),
      clipPhase ((r, ClipResult.ok out) :: rest) =
        (out :: (clipPhase rest).1, (clipPhase rest).2)) := by
  refine ⟨processAlgorithm_error_iff inp, ?_, ?_, ?_⟩ <;> intros <;> rfl

/-- C9: with buffer distance 0 the mask is exactly the unbuffered input
polygon and `native:buffer` is never invoked; with a positive distance whose
buffer call throws, the pipeline warns and falls back to the unbuffered
polygon; and the buffer outcome never decides whether the pipeline raises (a
buffer failure alone never aborts). -/
theorem RVE_C9 (inp : PipeInput) (b : ℚ) (e : String) (hb : 0 < b) :
    computeMask 0 inp.bufferRun = (MaskLayer.original, false, []) ∧
    computeMask b (RunOutcome.throws e) =
      (MaskLayer.original, true, ["Buffer failed: " ++ e]) ∧
    ((∃ m, processAlgorithm inp = Except.error m) ↔
      (∃ m, processAlgorithm { inp with bufferRun := RunOutcome.succeeds } =
        Except.error m)) := by
  refine ⟨by simp [computeMask], by simp [computeMask, hb], ?_⟩
  rw [processAlgorithm_error_iff, processAlgorithm_error_iff]

/-- Witness for C9 at buffer size 1 and a throwing buffer call. -/
theorem RVE_C9_witness :
    computeMask 0 RunOutcome.succeeds = (MaskLayer.original, false, []) ∧
    computeMask 1 (RunOutcome.throws "x") =
      (MaskLayer.original, true, ["Buffer failed: " ++ "x"]) := by
  have h := RVE_C9
    ⟨true, [], true, RunOutcome.succeeds, 0, RunOutcome.succeeds, RunOutcome.succeeds,
      [], [], RunOutcome.succeeds, RunOutcome.succeeds⟩ 1 "x" (by norm_num)
  exact ⟨h.1, h.2.1⟩

/-! ### C3: final-name resolution and the order of the applied renames -/

lemma applyRename_nil (g : List String) : applyRename [] g = g := by
  unfold applyRename
  suffices h : ∀ (k : ℕ) (l : List String), applyRenameFrom [] k l = l from h 0 g
  intro k l
  induction l generalizing k with
  | nil => rfl
  | cons x xs ih => simp [applyRenameFrom, List.lookup, ih]

lemma zip_get?_some {α β : Type} : ∀ (l1 : List α) (l2 : List β) (j : ℕ)
    (a : α) (b : β), l1.get? j = some a → l2.get? j = some b →
    (l1.zip l2).get? j = some (a, b) := by
  intro l1
  induction l1 with
  | nil => intro l2 j a b h1 _; simp at h1
  | cons x xs ih =>
    intro l2 j a b h1 h2
    cases l2 with
    | nil => simp at h2
    | cons y ys =>
      cases j with
      | zero =>
        simp only [List.get?_cons_zero, Option.some.injEq] at h1 h2
        simp [List.zip_cons_cons, h1, h2]
      | succ j =>
        simp only [List.get?_cons_succ] at h1 h2
        simpa [List.zip_cons_cons] using ih ys j a b h1 h2

lemma resolveFinalNames_length (fb : String) (c : ℕ) (u1 : Finset String) :
    (resolveFinalNames fb c u1).1.length = if c ≤ 1 then 1 else c := by
  unfold resolveFinalNames
  split
  · simp
  · rw [runUniqueNames_length]
    simp

lemma sampleOk_grid_fine (st : LoopState) (i : ℕ) (fb : String) (u1 : Finset String)
    (an : List String) (ror : RenameOutcome) (hror : ror = RenameOutcome.fine)
    (hv : renameValid (renameMapOf ((sort_by_suffix (newFieldsOf i st.grid an)).zip
        (resolveFinalNames fb (sort_by_suffix (newFieldsOf i st.grid an)).length u1).1) an)
      an = true) :
    (sampleOk st i fb u1 an ror).grid =
      applyRename (renameMapOf ((sort_by_suffix (newFieldsOf i st.grid an)).zip
        (resolveFinalNames fb (sort_by_suffix (newFieldsOf i st.grid an)).length u1).1) an)
        an := by
  unfold sampleOk
  dsimp only
  split
  · next h0 => rw [h0, applyRename_nil]
  · split
    · rfl
    · simp at hror
    · simp at hror

/-- C3: name resolution for the columns added by one sampling call.  With the
sorted new columns `NS`, (a) if exactly one new column was added its final
name is `final_base`; (b) if several were added the final names are
`unique_name(final_base ++ "_B" ++ rank)` for rank = 1..N, threaded through
the registry in that order; and (c) when the rename commits, the grid column
that held the j-th sorted temporary name now holds the j-th final name. -/
theorem RVE_C3 (st : LoopState) (i : ℕ) (r_path : String) (fields : List String)
    (p : String × Finset String) (NS fns : List String)
    (hp : p = unique_name (base_name_from_clip r_path) st.used)
    (hNS : NS = sort_by_suffix (newFieldsOf i st.grid fields))
    (hfns : fns = (resolveFinalNames p.1 NS.length p.2).1)
    (hnodup : fields.Nodup)
    (hvalid : renameValid (renameMapOf (NS.zip fns) fields) fields = true) :
    (NS.length = 1 → fns = [p.1]) ∧
    (1 < NS.length →
      fns = (runUniqueNames ((List.range NS.length).map
        (fun j => p.1 ++ "_B" ++ Nat.repr (j + 1))) p.2).1) ∧
    (∀ j (hj : j < NS.length) (idx : ℕ), pyIndexOf (NS.get ⟨j, hj⟩) fields = some idx →
      (sampleStep st i r_path (SampleResult.ok fields) RenameOutcome.fine).grid.get? idx =
        fns.get? j) := by
  subst hfns
  subst hNS
  subst hp
  have hNSnodup : (sort_by_suffix (newFieldsOf i st.grid fields)).Nodup := by
    refine (List.perm_insertionSort _ _).nodup_iff.mpr ?_
    unfold newFieldsOf
    dsimp only
    split
    · exact hnodup.filter _
    · exact hnodup.filter _
  have hlenfns : (resolveFinalNames (unique_name (base_name_from_clip r_path) st.used).1
      (sort_by_suffix (newFieldsOf i st.grid fields)).length
      (unique_name (base_name_from_clip r_path) st.used).2).1.length =
      if (sort_by_suffix (newFieldsOf i st.grid fields)).length ≤ 1 then 1
      else (sort_by_suffix (newFieldsOf i st.grid fields)).length :=
    resolveFinalNames_length _ _ _
  have hNSle : (sort_by_suffix (newFieldsOf i st.grid fields)).length ≤
      (resolveFinalNames (unique_name (base_name_from_clip r_path) st.used).1
        (sort_by_suffix (newFieldsOf i st.grid fields)).length
        (unique_name (base_name_from_clip r_path) st.used).2).1.length := by
    rw [hlenfns]
    split <;> omega
  refine ⟨?_, ?_, ?_⟩
  · intro h1
    rw [h1]
    unfold resolveFinalNames
    rw [if_pos (by norm_num)]
  · intro h1
    unfold resolveFinalNames
    rw [if_neg (by omega)]
  · intro j hj idx hidx
    have hgrid : (sampleStep st i r_path (SampleResult.ok fields) RenameOutcome.fine).grid =
        applyRename (renameMapOf ((sort_by_suffix (newFieldsOf i st.grid fields)).zip
          (resolveFinalNames (unique_name (base_name_from_clip r_path) st.used).1
            (sort_by_suffix (newFieldsOf i st.grid fields)).length
            (unique_name (base_name_from_clip r_path) st.used).2).1) fields) fields := by
      show (sampleOk st i (unique_name (base_name_from_clip r_path) st.used).1
        (unique_name (base_name_from_clip r_path) st.used).2 fields RenameOutcome.fine).grid = _
      exact sampleOk_grid_fine st i _ _ fields RenameOutcome.fine rfl hvalid
    have hjfns : j < (resolveFinalNames (unique_name (base_name_from_clip r_path) st.used).1
        (sort_by_suffix (newFieldsOf i st.grid fields)).length
        (unique_name (base_name_from_clip r_path) st.used).2).1.length :=
      lt_of_lt_of_le hj hNSle
    have hg1 := List.get?_eq_get hj
    have hg2 := List.get?_eq_get hjfns
    have hmem := List.get?_mem (zip_get?_some _ _ j _ _ hg1 hg2)
    have hfstnd : (((sort_by_suffix (newFieldsOf i st.grid fields)).zip
        (resolveFinalNames (unique_name (base_name_from_clip r_path) st.used).1
          (sort_by_suffix (newFieldsOf i st.grid fields)).length
          (unique_name (base_name_from_clip r_path) st.used).2).1).map Prod.fst).Nodup := by
      rw [List.map_fst_zip _ _ hNSle]
      exact hNSnodup
    have hlk := lookup_renameMapOf_eq hidx hfstnd hmem
    rw [hgrid, applyRename_get?, pyIndexOf_get? hidx]
    by_cases heq2 : (sort_by_suffix (newFieldsOf i st.grid fields)).get ⟨j, hj⟩ =
        (resolveFinalNames (unique_name (base_name_from_clip r_path) st.used).1
          (sort_by_suffix (newFieldsOf i st.grid fields)).length
          (unique_name (base_name_from_clip r_path) st.used).2).1.get ⟨j, hjfns⟩
    · rw [hlk, if_pos heq2]
      simp only [Option.map_some', Option.getD_none]
      rw [hg2, heq2]
    · rw [hlk, if_neg heq2]
      simp only [Option.map_some', Option.getD_some]
      rw [hg2]

/-- Witness for C3: a two-band sampling of "a_clip.tif" over grid ["id"];
after the committed rename, the column that held "tmp0__1" holds "a_B1". -/
theorem RVE_C3_witness :
    (sampleStep ⟨["id"], ∅, [], []⟩ 0 "a_clip.tif"
        (SampleResult.ok ["id", "tmp0__1", "tmp0__2"]) RenameOutcome.fine).grid.get? 1 =
      some "a_B1" := by
  have hbase : base_name_from_clip "a_clip.tif" = "a" := by decide
  have hfb : (unique_name (base_name_from_clip "a_clip.tif") (∅ : Finset String)).1 = "a" := by
    rw [hbase]
    exact unique_name_of_not_mem (by simp)
  have hsnd : (unique_name (base_name_from_clip "a_clip.tif") (∅ : Finset String)).2 =
      insert "a" ∅ := by
    rw [unique_name_snd, hfb]
  have hNS : sort_by_suffix (newFieldsOf 0 ["id"] ["id", "tmp0__1", "tmp0__2"]) =
      ["tmp0__1", "tmp0__2"] := by decide
  have hb1 : (unique_name "a_B1" (insert "a" (∅ : Finset String))).1 = "a_B1" :=
    unique_name_of_not_mem (by decide)
  have hb1s : (unique_name "a_B1" (insert "a" (∅ : Finset String))).2 =
      insert "a_B1" (insert "a" ∅) := by
    rw [unique_name_snd, hb1]
  have hb2 : (unique_name "a_B2" (insert "a_B1" (insert "a" (∅ : Finset String)))).1 = "a_B2" :=
    unique_name_of_not_mem (by decide)
  have hrun : (runUniqueNames ["a_B1", "a_B2"] (insert "a" (∅ : Finset String))).1 =
      ["a_B1", "a_B2"] := by
    show (unique_name "a_B1" (insert "a" ∅)).1 ::
      (unique_name "a_B2" (unique_name "a_B1" (insert "a" ∅)).2).1 :: [] = ["a_B1", "a_B2"]
    rw [hb1s, hb1, hb2]
  have hfns : (resolveFinalNames (unique_name (base_name_from_clip "a_clip.tif")
      (∅ : Finset String)).1 (["tmp0__1", "tmp0__2"] : List String).length
      (unique_name (base_name_from_clip "a_clip.tif") (∅ : Finset String)).2).1 =
      ["a_B1", "a_B2"] := by
    unfold resolveFinalNames
    rw [if_neg (by norm_num)]
    rw [hfb, hsnd]
    have hmap : (List.range (["tmp0__1", "tmp0__2"] : List String).length).map
        (fun j => "a" ++ "_B" ++ Nat.repr (j + 1)) = ["a_B1", "a_B2"] := by decide
    rw [hmap, hrun]
  have h := RVE_C3 ⟨["id"], ∅, [], []⟩ 0 "a_clip.tif" ["id", "tmp0__1", "tmp0__2"]
    (unique_name (base_name_from_clip "a_clip.tif") ∅) ["tmp0__1", "tmp0__2"]
    ["a_B1", "a_B2"] rfl hNS.symm hfns.symm (by decide) (by decide)
  exact (h.2.2 0 (by norm_num) 1 (by decide)).trans (by decide)

end RVE
